import Mathlib

/-!
Shallow embedding of the microkernel sources (`src/task.rs`, `src/sync.rs`,
`src/memory.rs`, `src/allocator.rs`, `src/main.rs`) and proofs about the
scheduler, IPC, semaphore, frame allocator and heap bootstrap.

Machine integers (`u64`, `usize`) are modelled as `Nat`; the only place where
wrap-around matters is the semaphore counter (`AtomicUsize::fetch_add`), where
we reduce modulo `2^64` explicitly.  Fallible operations (Rust panics and
`Option`/`Result` returns) are modelled with explicit result types.
-/

namespace Microkernel

/-- `TaskState` from `task.rs`: `Running`, `Ready`, `Blocked`. -/
inductive TaskState where
  | Running
  | Ready
  | Blocked
deriving DecidableEq, Repr

/-- `TaskContext` from `task.rs`: the callee-saved register set.
`VirtAddr`/`u64` fields are modelled as `Nat` (the kernel only stores and
copies them; no arithmetic overflows are relevant to the claims). -/
structure TaskContext where
  rsp : Nat
  rbp : Nat
  rbx : Nat
  r12 : Nat
  r13 : Nat
  r14 : Nat
  r15 : Nat
  rip : Nat
deriving DecidableEq, Repr

/-- `Task` from `task.rs`: id, state, context, and the (opaque) pointer to the
P4 page table, modelled as a plain number. -/
structure Task where
  id : Nat
  state : TaskState
  context : TaskContext
  p4_table : Nat
deriving DecidableEq, Repr

instance : Inhabited TaskContext := ⟨⟨0, 0, 0, 0, 0, 0, 0, 0⟩⟩
instance : Inhabited Task := ⟨⟨0, TaskState.Ready, default, 0⟩⟩

/-- `Task::new(entry_point, stack_top, p4_table)` from `task.rs`: a fresh
`Ready` task with `rsp = rbp = stack_top`, `rip = entry_point` and zeroed
callee-saved registers.  The freshly minted `TaskId` is passed explicitly
(the source mints it from a global atomic counter, so every constructed task
has an id never used before). -/
def Task.mkNew (id entry_point stack_top p4_table : Nat) : Task :=
  { id := id
    state := TaskState.Ready
    context :=
      { rsp := stack_top, rbp := stack_top, rbx := 0, r12 := 0, r13 := 0
        r14 := 0, r15 := 0, rip := entry_point }
    p4_table := p4_table }

/-- `Scheduler` from `task.rs`: an ordered sequence of tasks plus the index of
the current slot. -/
structure Scheduler where
  tasks : List Task
  current_task : Nat
deriving DecidableEq, Repr

/-- `Scheduler::new()`. -/
def Scheduler.new : Scheduler := ⟨[], 0⟩

/-- `Scheduler::current_task_id` indexes `self.tasks[self.current_task]`;
`none` models the out-of-bounds panic. -/
def Scheduler.current_task_id (s : Scheduler) : Option Nat :=
  (s.tasks.get? s.current_task).map Task.id

/-- Result of `Scheduler::schedule`.  `panic` covers the two panicking paths
of the source (`% 0` when the task list is empty, and the out-of-bounds
indexing in the `split_at_mut` arm when the selected index equals the current
index or the current index is not a valid position); `divergeFuel` marks
exhaustion of the loop fuel (the source loop can only fail to terminate from
states whose `current_task` is out of range, which are not constructible
through the public interface). -/
inductive SchedResult where
  | panic
  | divergeFuel
  | noneFound (s : Scheduler)
  | switch (s : Scheduler) (out_ctx in_ctx : TaskContext)
deriving DecidableEq, Repr

/-- The `while` loop of `Scheduler::schedule` (task.rs lines 160-166):
starting from `next`, keep advancing `next = (next + 1) % N` while
`tasks[next].state != Ready`; stop with `some j` when a `Ready` task is found,
with `none` when the scan wraps back to `current`.  `fuel` bounds the number
of iterations; the outer `Option` is `none` on fuel exhaustion. -/
def scanLoop (tasks : List Task) (current : Nat) : Nat → Nat → Option (Option Nat)
  | 0, _ => none
  | fuel + 1, next =>
    if (tasks.getD next default).state = TaskState.Ready then
      some (some next)
    else
      if (next + 1) % tasks.length = current then some none
      else scanLoop tasks current fuel ((next + 1) % tasks.length)

/-- `Scheduler::schedule` from `task.rs` (lines 156-186), translated
faithfully including its panic behaviour:
* `N = 0` panics (`(current + 1) % 0` is a remainder by zero in Rust);
* the scan loop selects the first `Ready` index in cyclic order;
* the `split_at_mut(max(current, j))` arm panics when `current ≥ N`
  (`second[0]` or the split itself is out of bounds) and when `j = current`
  (`first[j]` indexes an empty prefix: the `N == 1` boot case);
* otherwise the outgoing task goes `Running → Ready` (other states are kept),
  the incoming task becomes `Running`, `current_task` becomes `j`, and the
  pair of (outgoing, incoming) contexts is returned. -/
def Scheduler.schedule (s : Scheduler) : SchedResult :=
  let N := s.tasks.length
  if N = 0 then SchedResult.panic
  else
    let c := s.current_task
    match scanLoop s.tasks c N ((c + 1) % N) with
    | none => SchedResult.divergeFuel
    | some none => SchedResult.noneFound s
    | some (some j) =>
      if c < N then
        if c = j then SchedResult.panic
        else
          let outTask := s.tasks.getD c default
          let inTask := s.tasks.getD j default
          let outTask' :=
            if outTask.state = TaskState.Running then
              { outTask with state := TaskState.Ready }
            else outTask
          let inTask' := { inTask with state := TaskState.Running }
          SchedResult.switch ⟨(s.tasks.set c outTask').set j inTask', j⟩
            outTask'.context inTask'.context
      else SchedResult.panic

/-! ### Mailboxes (`MAILBOXES` in `task.rs`)

`BTreeMap<TaskId, VecDeque<Message>>` is modelled as an association list with
at most one binding per key (`mbInsert` replaces an existing binding, like
`BTreeMap::insert`); `VecDeque<Message>` as `List Nat` (push_back appends at
the tail, pop_front removes the head). -/

/-- The mailbox map. -/
abbrev Mailboxes := List (Nat × List Nat)

/-- `BTreeMap::get` / `get_mut`: the value bound to `k`, if any. -/
def mbLookup : Mailboxes → Nat → Option (List Nat)
  | [], _ => none
  | (k', v) :: rest, k => if k' = k then some v else mbLookup rest k

/-- `BTreeMap::insert k v`: replace the binding of `k`, or add one. -/
def mbInsert : Mailboxes → Nat → List Nat → Mailboxes
  | [], k, v => [(k, v)]
  | (k', v') :: rest, k, v =>
    if k' = k then (k, v) :: rest else (k', v') :: mbInsert rest k v

/-- In-place update of the value bound to `k` (models mutation through
`get_mut`); no-op when `k` is unbound. -/
def mbUpdate : Mailboxes → Nat → (List Nat → List Nat) → Mailboxes
  | [], _, _ => []
  | (k', v') :: rest, k, f =>
    if k' = k then (k', f v') :: rest else (k', v') :: mbUpdate rest k f

/-- Kernel state shared by the IPC operations: the global `SCHEDULER` and the
global `MAILBOXES`. -/
structure KState where
  sched : Scheduler
  mailboxes : Mailboxes
deriving DecidableEq, Repr

/-- `Scheduler::add_task` (task.rs lines 147-151): push the task at the end
of the task sequence and insert an empty mailbox keyed by its id. -/
def addTask (st : KState) (t : Task) : KState :=
  { sched := ⟨st.sched.tasks ++ [t], st.sched.current_task⟩
    mailboxes := mbInsert st.mailboxes t.id [] }

/-- `tasks.iter_mut().find(|t| t.id == i)` followed by a mutation `f` of the
found task: apply `f` to the first task whose id is `i`, leave everything
else alone (no-op when no task has id `i`). -/
def mapFirstId (f : Task → Task) : List Task → Nat → List Task
  | [], _ => []
  | t :: ts, i =>
    if t.id = i then f t :: ts else t :: mapFirstId f ts i

/-- The wake-up step of `send` (task.rs lines 201-205):
`tasks.iter_mut().find(|t| t.id == receiver_id)`, and if that task is
`Blocked`, mark it `Ready`.  A `Running` or `Ready` receiver (or an absent
id) is unchanged. -/
def wakeFirst (ts : List Task) (i : Nat) : List Task :=
  mapFirstId
    (fun t => if t.state = TaskState.Blocked then { t with state := TaskState.Ready } else t)
    ts i

/-- The blocking step of `receive` (task.rs lines 226-229) and
`Semaphore::down` (sync.rs lines 41-45):
`tasks.iter_mut().find(|t| t.id == my_id).unwrap()` followed by
`state = Blocked` (the `unwrap` is handled by the callers). -/
def blockFirst (ts : List Task) (i : Nat) : List Task :=
  mapFirstId (fun t => { t with state := TaskState.Blocked }) ts i

/-- The wake-up step of `Semaphore::up` (sync.rs lines 58-61):
`find(|t| t.id == task_id)`, and if found, set its state to `Ready`
(unconditionally — unlike `send`, `up` does not check for `Blocked`). -/
def readyFirst (ts : List Task) (i : Nat) : List Task :=
  mapFirstId (fun t => { t with state := TaskState.Ready }) ts i

/-- `send(receiver_id, message)` from `task.rs` (lines 195-210): if a mailbox
for `receiver_id` exists, push the message at the tail, wake the receiver if
it was `Blocked`, and return `true`; otherwise change nothing and return
`false`. -/
def send (st : KState) (receiver_id message : Nat) : KState × Bool :=
  match mbLookup st.mailboxes receiver_id with
  | some _ =>
    ({ sched := ⟨wakeFirst st.sched.tasks receiver_id, st.sched.current_task⟩
       mailboxes := mbUpdate st.mailboxes receiver_id (fun q => q ++ [message]) }, true)
  | none => (st, false)

/-- Result of one iteration of the `receive` loop.  `panic` covers the
out-of-bounds indexing in `current_task_id` and the two `unwrap`s in
`receive`; `blockedYield` is the path that marks the caller `Blocked` and
raises the timer vector to yield. -/
inductive RecvResult where
  | panic
  | msg (m : Nat) (st : KState)
  | blockedYield (st : KState)
deriving DecidableEq, Repr

/-- One iteration of the loop in `receive()` from `task.rs` (lines 215-234),
executed by the task at the scheduler's `current_task` slot (the source reads
`my_id = SCHEDULER.lock().current_task_id()` before the loop): pop the head
of the caller's mailbox and return it if non-empty; otherwise mark the caller
`Blocked` and yield. -/
def receiveIter (st : KState) : RecvResult :=
  match st.sched.tasks.get? st.sched.current_task with
  | none => RecvResult.panic
  | some cur =>
    match mbLookup st.mailboxes cur.id with
    | none => RecvResult.panic
    | some mailbox =>
      match mailbox with
      | m :: rest =>
        RecvResult.msg m { st with mailboxes := mbUpdate st.mailboxes cur.id (fun _ => rest) }
      | [] =>
        if st.sched.tasks.any (fun t => t.id = cur.id) then
          RecvResult.blockedYield
            { st with sched := ⟨blockFirst st.sched.tasks cur.id, st.sched.current_task⟩ }
        else RecvResult.panic

/-! ### Semaphore (`sync.rs`) -/

/-- Word size of `usize`/`AtomicUsize` on x86_64. -/
def USIZE_MOD : Nat := 2 ^ 64

/-- `Semaphore` from `sync.rs`: the atomic counter and the FIFO of waiting
task ids. -/
structure Semaphore where
  counter : Nat
  waiting_tasks : List Nat
deriving DecidableEq, Repr

/-- `Semaphore::new(initial_value)`. -/
def Semaphore.new (initial_value : Nat) : Semaphore := ⟨initial_value, []⟩

/-- The successful CAS path of `Semaphore::down` (sync.rs lines 29-35):
requires `counter > 0`; decrements the counter and returns. -/
def Semaphore.downOk (s : Semaphore) : Semaphore :=
  ⟨s.counter - 1, s.waiting_tasks⟩

/-- The blocking path of `Semaphore::down` (sync.rs lines 37-47): taken when
the loaded counter is `0`; enqueues the caller's id at the tail of the wait
queue (the caller is then marked `Blocked` in the scheduler and yields). -/
def Semaphore.downBlock (s : Semaphore) (my_id : Nat) : Semaphore :=
  ⟨s.counter, s.waiting_tasks ++ [my_id]⟩

/-- `Semaphore::up` (sync.rs lines 55-63) restricted to the semaphore state:
`fetch_add(1)` on the counter (wrapping at the word size) and `pop_front` on
the wait queue; returns the popped id, if any (the caller then readies that
task in the scheduler). -/
def Semaphore.upStep (s : Semaphore) : Semaphore × Option Nat :=
  (⟨(s.counter + 1) % USIZE_MOD, s.waiting_tasks.tail⟩, s.waiting_tasks.head?)

/-- One event of a semaphore history: a `down` call returning through the
CAS (`downOk`), a `down` call parking its caller (`downBlock`), or an `up`
call. -/
inductive SemEvent where
  | downOk
  | downBlock (id : Nat)
  | up
deriving DecidableEq, Repr

/-- One step of a semaphore history; `none` when the event's guard does not
hold in the current state (`downOk` needs a positive counter, `downBlock`
happens only when the loaded counter is zero). -/
def semStep (s : Semaphore) : SemEvent → Option Semaphore
  | SemEvent.downOk => if s.counter > 0 then some s.downOk else none
  | SemEvent.downBlock i => if s.counter = 0 then some (s.downBlock i) else none
  | SemEvent.up => some (s.upStep).1

/-- Run a history of semaphore events from a state. -/
def runHistory (s : Semaphore) : List SemEvent → Option Semaphore
  | [] => some s
  | e :: es =>
    match semStep s e with
    | some s' => runHistory s' es
    | none => none

/-- Number of `up` calls in a history. -/
def countUp (h : List SemEvent) : Nat :=
  h.countP (fun e => e = SemEvent.up)

/-- Number of `down` calls that returned (CAS successes) in a history. -/
def countDownOk (h : List SemEvent) : Nat :=
  h.countP (fun e => e = SemEvent.downOk)

/-! ### Frame allocator (`memory.rs`) -/

/-- `MemoryRegionType` from the bootloader's memory map; everything that is
not `Usable` behaves identically in `usable_frames`, so the non-usable kinds
are collapsed into one constructor. -/
inductive MemoryRegionType where
  | Usable
  | Other
deriving DecidableEq, Repr

/-- One record of the firmware memory map: `{start_addr, end_addr,
region_type}` (addresses as `Nat`). -/
structure MemoryRegion where
  start_addr : Nat
  end_addr : Nat
  region_type : MemoryRegionType
deriving DecidableEq, Repr

/-- `r.range.start_addr()..r.range.end_addr()` stepped by 4096
(`Range::step_by(4096)`): the addresses `start + 4096 * k` while
`< end_addr`. -/
def regionAddrs (r : MemoryRegion) : List Nat :=
  (List.range ((r.end_addr - r.start_addr + 4095) / 4096)).map
    (fun k => r.start_addr + 4096 * k)

/-- `PhysFrame::containing_address`: align down to a 4 KiB boundary. -/
def frameContaining (addr : Nat) : Nat := addr - addr % 4096

/-- `BootInfoFrameAllocator::usable_frames` (memory.rs lines 55-67): filter
the map down to `Usable` regions, concatenate each region's addresses stepped
by 4096, and align each down to its containing frame. -/
def usableFrames (memory_map : List MemoryRegion) : List Nat :=
  ((memory_map.filter (fun r => r.region_type = MemoryRegionType.Usable)).flatMap
    regionAddrs).map frameContaining

/-- `BootInfoFrameAllocator` from `memory.rs`: the memory map plus the
monotone `next` cursor. -/
structure BootInfoFrameAllocator where
  memory_map : List MemoryRegion
  next : Nat
deriving DecidableEq, Repr

/-- `BootInfoFrameAllocator::init`. -/
def BootInfoFrameAllocator.init (memory_map : List MemoryRegion) : BootInfoFrameAllocator :=
  ⟨memory_map, 0⟩

/-- `BootInfoFrameAllocator::allocate_frame` (memory.rs lines 74-78): yield
the `next`-th usable frame (`usable_frames().nth(self.next)`), then increment
`next`. -/
def BootInfoFrameAllocator.allocate_frame (a : BootInfoFrameAllocator) :
    Option Nat × BootInfoFrameAllocator :=
  ((usableFrames a.memory_map).get? a.next, { a with next := a.next + 1 })

/-! ### Heap bootstrap (`allocator.rs`, `init_heap` in `main.rs`) -/

/-- `HEAP_START` from `allocator.rs`. -/
def HEAP_START : Nat := 0x444444440000

/-- `HEAP_SIZE` from `allocator.rs`: 100 KiB. -/
def HEAP_SIZE : Nat := 100 * 1024

/-- Page-table flags relevant to the heap mapping (`PRESENT | WRITABLE`). -/
structure PageFlags where
  present : Bool
  writable : Bool
deriving DecidableEq, Repr

/-- `MapToError` from the `x86_64` crate (the variants `init_heap` can
surface). -/
inductive MapToError where
  | FrameAllocationFailed
  | PageAlreadyMapped (frame : Nat)
deriving DecidableEq, Repr

/-- The mapper state: the installed mappings, page base address ↦
(frame base address, flags).  The `x86_64` crate's `OffsetPageTable` is an
external collaborator; its `map_to` contract — install a 4 KiB mapping,
failing if the page is already mapped — is modelled directly.  (The real
`map_to` may additionally draw frames for intermediate page tables; the
claims are about the frames mapped to heap pages, so that side allocation is
not modelled.) -/
abbrev Mapper := List (Nat × Nat × PageFlags)

/-- `mapper.map_to(page, frame, flags, _)`: fails if `page` already has a
mapping, otherwise records the mapping. -/
def mapTo (m : Mapper) (page frame : Nat) (flags : PageFlags) :
    Except MapToError Mapper :=
  if m.any (fun e => e.1 = page) then Except.error (MapToError.PageAlreadyMapped frame)
  else Except.ok (m ++ [(page, frame, flags)])

/-- `Page::containing_address`: align down to a 4 KiB boundary. -/
def pageContaining (addr : Nat) : Nat := addr - addr % 4096

/-- `Page::range_inclusive(p, q)` for page base addresses `p`, `q`: the pages
`p, p + 4096, …` up to and including the page of `q`. -/
def pageRangeInclusive (p q : Nat) : List Nat :=
  (List.range (q / 4096 + 1 - p / 4096)).map (fun k => p + 4096 * k)

/-- The page range of `init_heap` (main.rs lines 101-107): from the page
containing `HEAP_START` to the page containing `HEAP_START + HEAP_SIZE - 1`,
inclusive. -/
def heapPages : List Nat :=
  pageRangeInclusive (pageContaining HEAP_START)
    (pageContaining (HEAP_START + HEAP_SIZE - 1))

/-- The `for page in page_range` loop of `init_heap` (main.rs lines
109-117): for each page, allocate a frame (failing with
`FrameAllocationFailed` when the allocator is exhausted) and map the page to
it with `PRESENT | WRITABLE`. -/
def initHeapLoop : List Nat → Mapper → BootInfoFrameAllocator →
    Except MapToError (Mapper × BootInfoFrameAllocator)
  | [], m, a => Except.ok (m, a)
  | p :: ps, m, a =>
    match a.allocate_frame with
    | (none, _) => Except.error MapToError.FrameAllocationFailed
    | (some frame, a') =>
      match mapTo m p frame ⟨true, true⟩ with
      | Except.error e => Except.error e
      | Except.ok m' => initHeapLoop ps m' a'

/-- `init_heap(mapper, frame_allocator)` from `main.rs` (lines 97-124).  The
second component models the global heap allocator (`ALLOCATOR.init(HEAP_START,
HEAP_SIZE)` is called only after every mapping succeeded): `some (start,
size)` when initialized, `none` otherwise. -/
def initHeap (m : Mapper) (a : BootInfoFrameAllocator) :
    Except MapToError (Mapper × BootInfoFrameAllocator) × Option (Nat × Nat) :=
  match initHeapLoop heapPages m a with
  | Except.ok r => (Except.ok r, some (HEAP_START, HEAP_SIZE))
  | Except.error e => (Except.error e, none)

/-! ### Reachable kernel states

The states reachable from the initial empty scheduler by the operations of
`task.rs` and `sync.rs`.  `GState` carries the scheduler, the mailbox map and
one semaphore (histories with several semaphores touch the scheduler in the
same ways, so one representative suffices for the scheduler invariant). -/

structure GState where
  sched : Scheduler
  mailboxes : Mailboxes
  sem : Semaphore

/-- Projection to the IPC state. -/
def GState.k (g : GState) : KState := ⟨g.sched, g.mailboxes⟩

/-- The boot state: `Scheduler::new()`, empty `MAILBOXES`, a fresh
semaphore. -/
def GState.init (initial_value : Nat) : GState :=
  ⟨Scheduler.new, [], Semaphore.new initial_value⟩

/-- One kernel operation, as it affects the global state.  Tasks enter the
system only through `Task::new` (the only constructor reachable from outside
`task.rs`), hence as `Ready` tasks; panicking executions have no successor
state. -/
inductive KStep : GState → GState → Prop
  /-- `scheduler.add_task(Task::new(entry, stack_top, p4))`. -/
  | add (g : GState) (id entry stack_top p4 : Nat) :
    KStep g ⟨(addTask g.k (Task.mkNew id entry stack_top p4)).sched,
             (addTask g.k (Task.mkNew id entry stack_top p4)).mailboxes, g.sem⟩
  /-- A `schedule()` call that found a next task. -/
  | sched (g : GState) (s' : Scheduler) (o i : TaskContext)
      (h : g.sched.schedule = SchedResult.switch s' o i) :
    KStep g ⟨s', g.mailboxes, g.sem⟩
  /-- A `schedule()` call that found no ready task (no state change). -/
  | schedNone (g : GState) (s' : Scheduler)
      (h : g.sched.schedule = SchedResult.noneFound s') :
    KStep g ⟨s', g.mailboxes, g.sem⟩
  /-- A `send(receiver_id, message)` call. -/
  | send (g : GState) (receiver_id message : Nat) :
    KStep g ⟨(send g.k receiver_id message).1.sched,
             (send g.k receiver_id message).1.mailboxes, g.sem⟩
  /-- A `receive()` iteration that popped a message. -/
  | recvMsg (g : GState) (m : Nat) (st' : KState)
      (h : receiveIter g.k = RecvResult.msg m st') :
    KStep g ⟨st'.sched, st'.mailboxes, g.sem⟩
  /-- A `receive()` iteration that blocked the caller and yielded. -/
  | recvBlock (g : GState) (st' : KState)
      (h : receiveIter g.k = RecvResult.blockedYield st') :
    KStep g ⟨st'.sched, st'.mailboxes, g.sem⟩
  /-- A `Semaphore::down` call returning through the CAS. -/
  | downOk (g : GState) (h : g.sem.counter > 0) :
    KStep g ⟨g.sched, g.mailboxes, g.sem.downOk⟩
  /-- A `Semaphore::down` call that parks the caller: enqueue
  `current_task_id()` and mark that task `Blocked` (the `unwrap` in
  sync.rs line 43 requires the current slot to be valid). -/
  | downBlock (g : GState) (cur : Task)
      (hcur : g.sched.tasks.get? g.sched.current_task = some cur)
      (h0 : g.sem.counter = 0) :
    KStep g ⟨⟨blockFirst g.sched.tasks cur.id, g.sched.current_task⟩,
             g.mailboxes, g.sem.downBlock cur.id⟩
  /-- A `Semaphore::up` call: bump the counter, pop a waiter and ready it. -/
  | up (g : GState) :
    KStep g ⟨⟨match (g.sem.upStep).2 with
              | some woken => readyFirst g.sched.tasks woken
              | none => g.sched.tasks,
              g.sched.current_task⟩,
             g.mailboxes, (g.sem.upStep).1⟩

/-- States reachable from a boot state by kernel operations. -/
inductive Reachable : GState → Prop
  | init (initial_value : Nat) : Reachable (GState.init initial_value)
  | step {g g' : GState} (hr : Reachable g) (hs : KStep g g') : Reachable g'

/-! ## Lemmas about the mailbox map -/

theorem mbLookup_mbInsert_self (m : Mailboxes) (k : Nat) (v : List Nat) :
    mbLookup (mbInsert m k v) k = some v := by
  induction m with
  | nil => simp [mbInsert, mbLookup]
  | cons e rest ih =>
    by_cases h : e.1 = k
    · simp [mbInsert, h, mbLookup]
    · simpa [mbInsert, h, mbLookup] using ih

theorem mbLookup_mbInsert_ne (m : Mailboxes) (k : Nat) (v : List Nat) (k' : Nat)
    (h : k' ≠ k) : mbLookup (mbInsert m k v) k' = mbLookup m k' := by
  induction m with
  | nil => simp [mbInsert, mbLookup, Ne.symm h]
  | cons e rest ih =>
    by_cases he : e.1 = k
    · subst he
      simp [mbInsert, mbLookup, Ne.symm h]
    · by_cases he' : e.1 = k' <;> simp [mbInsert, mbLookup, he, he', h, ih]

theorem mbLookup_mbUpdate_self (m : Mailboxes) (k : Nat) (f : List Nat → List Nat) :
    mbLookup (mbUpdate m k f) k = (mbLookup m k).map f := by
  induction m with
  | nil => simp [mbUpdate, mbLookup]
  | cons e rest ih =>
    by_cases h : e.1 = k
    · simp [mbUpdate, h, mbLookup]
    · simpa [mbUpdate, h, mbLookup] using ih

theorem mbLookup_mbUpdate_ne (m : Mailboxes) (k : Nat) (f : List Nat → List Nat)
    (k' : Nat) (h : k' ≠ k) : mbLookup (mbUpdate m k f) k' = mbLookup m k' := by
  induction m with
  | nil => simp [mbUpdate, mbLookup]
  | cons e rest ih =>
    by_cases he : e.1 = k
    · subst he
      simp [mbUpdate, mbLookup, Ne.symm h]
    · by_cases he' : e.1 = k' <;> simp [mbUpdate, mbLookup, he, he', h, ih]

/-! ## Lemmas about `mapFirstId` -/

theorem mapFirstId_of_forall_ne (f : Task → Task) (ts : List Task) (i : Nat)
    (h : ∀ t ∈ ts, t.id ≠ i) : mapFirstId f ts i = ts := by
  induction ts with
  | nil => rfl
  | cons t rest ih =>
    have ht : t.id ≠ i := h t (List.mem_cons_self t rest)
    simp only [mapFirstId, if_neg ht]
    rw [ih (fun u hu => h u (List.mem_cons_of_mem t hu))]

theorem mapFirstId_eq_set (f : Task → Task) (ts : List Task) (i j : Nat) (t' : Task)
    (hj : ts.get? j = some t') (hid : t'.id = i)
    (hfirst : ∀ j' t'', j' < j → ts.get? j' = some t'' → t''.id ≠ i) :
    mapFirstId f ts i = ts.set j (f t') := by
  induction ts generalizing j with
  | nil => simp [List.get?] at hj
  | cons t rest ih =>
    cases j with
    | zero =>
      simp only [List.get?] at hj
      cases hj
      simp [mapFirstId, hid]
    | succ j =>
      have ht : t.id ≠ i := hfirst 0 t (Nat.succ_pos j) rfl
      simp only [List.get?] at hj
      simp only [mapFirstId, if_neg ht, List.set]
      rw [ih j hj (fun j' t'' hlt hget => hfirst (j' + 1) t'' (Nat.succ_lt_succ hlt) hget)]

theorem mapFirstId_get? (f : Task → Task) (ts : List Task) (i j : Nat) (t'' : Task)
    (h : (mapFirstId f ts i).get? j = some t'') :
    ∃ t', ts.get? j = some t' ∧ (t'' = t' ∨ (t'.id = i ∧ t'' = f t')) := by
  induction ts generalizing j with
  | nil => simp [mapFirstId, List.get?] at h
  | cons t rest ih =>
    by_cases ht : t.id = i
    · simp only [mapFirstId, if_pos ht] at h
      cases j with
      | zero =>
        simp only [List.get?] at h ⊢
        cases h
        exact ⟨t, rfl, Or.inr ⟨ht, rfl⟩⟩
      | succ j =>
        simp only [List.get?] at h ⊢
        exact ⟨t'', h, Or.inl rfl⟩
    · simp only [mapFirstId, if_neg ht] at h
      cases j with
      | zero =>
        simp only [List.get?] at h ⊢
        cases h
        exact ⟨t'', rfl, Or.inl rfl⟩
      | succ j =>
        simp only [List.get?] at h ⊢
        exact ih j h

theorem mapFirstId_length (f : Task → Task) (ts : List Task) (i : Nat) :
    (mapFirstId f ts i).length = ts.length := by
  induction ts with
  | nil => rfl
  | cons t rest ih =>
    by_cases ht : t.id = i <;> simp [mapFirstId, ht, ih]

theorem mapFirstId_id (f : Task → Task) (hf : ∀ t, (f t).id = t.id)
    (ts : List Task) (i j : Nat) :
    ((mapFirstId f ts i).get? j).map Task.id = (ts.get? j).map Task.id := by
  induction ts generalizing j with
  | nil => rfl
  | cons t rest ih =>
    by_cases ht : t.id = i
    · cases j <;> simp [mapFirstId, ht, List.get?, hf]
    · cases j with
      | zero => simp [mapFirstId, ht, List.get?]
      | succ n =>
        simp only [mapFirstId, if_neg ht, List.get?]
        exact ih n

theorem list_set_get?_self {α : Type _} (l : List α) (j : Nat) (a : α)
    (h : l.get? j = some a) : l.set j a = l := by
  induction l generalizing j with
  | nil => rfl
  | cons x xs ih =>
    cases j with
    | zero =>
      simp only [List.get?] at h
      cases h
      rfl
    | succ j =>
      simp only [List.get?] at h
      simp [List.set, ih j h]

/-- C9: `add_task(t)` appends `t` at the end of the task sequence and creates
an empty mailbox keyed by `t.id`, leaving previously added tasks, the
contents of previously existing mailboxes, and the `current` index
unchanged.  The hypothesis `hfresh` reflects that `t.id` was minted by
`TaskId::new` (a monotone global counter), so no mailbox for it can already
exist. -/
theorem addTask_spec (st : KState) (t : Task)
    (hfresh : mbLookup st.mailboxes t.id = none) :
    (addTask st t).sched.tasks = st.sched.tasks ++ [t] ∧
    (addTask st t).sched.current_task = st.sched.current_task ∧
    mbLookup (addTask st t).mailboxes t.id = some [] ∧
    (∀ i, i < st.sched.tasks.length →
      (addTask st t).sched.tasks.get? i = st.sched.tasks.get? i) ∧
    (∀ k q, mbLookup st.mailboxes k = some q →
      mbLookup (addTask st t).mailboxes k = some q) := by
  refine ⟨rfl, rfl, mbLookup_mbInsert_self _ _ _, ?_, ?_⟩
  · intro i hi
    exact List.get?_append hi
  · intro k q hk
    have hne : k ≠ t.id := by
      intro hkt
      rw [hkt, hfresh] at hk
      cases hk
    show mbLookup (mbInsert st.mailboxes t.id []) k = some q
    rw [mbLookup_mbInsert_ne _ _ _ _ hne]
    exact hk

/-- Witness for `addTask_spec` at a concrete state. -/
theorem addTask_spec_witness :
    mbLookup (addTask ⟨⟨[], 0⟩, []⟩ (Task.mkNew 0 1 2 3)).mailboxes 0 = some [] :=
  (addTask_spec ⟨⟨[], 0⟩, []⟩ (Task.mkNew 0 1 2 3) rfl).2.2.1

/-- C3: `send(r, m)` returns `false` iff no mailbox exists for `r`, in which
case nothing changes; when a mailbox exists it appends `m` at the tail of
`r`'s FIFO, leaves all other mailboxes and the `current` index alone, readies
the first task with id `r` exactly when it was `Blocked` (a `Running` or
`Ready` receiver, or an absent receiver id, is untouched), and returns
`true`. -/
theorem send_spec (st : KState) (r m : Nat) :
    ((send st r m).2 = false ↔ mbLookup st.mailboxes r = none) ∧
    (mbLookup st.mailboxes r = none → (send st r m).1 = st) ∧
    (∀ q, mbLookup st.mailboxes r = some q →
      (send st r m).2 = true ∧
      mbLookup (send st r m).1.mailboxes r = some (q ++ [m]) ∧
      (∀ k, k ≠ r → mbLookup (send st r m).1.mailboxes k = mbLookup st.mailboxes k) ∧
      (send st r m).1.sched.current_task = st.sched.current_task ∧
      ((∀ t' ∈ st.sched.tasks, t'.id ≠ r) →
        (send st r m).1.sched.tasks = st.sched.tasks) ∧
      (∀ j t', st.sched.tasks.get? j = some t' → t'.id = r →
        (∀ j' t'', j' < j → st.sched.tasks.get? j' = some t'' → t''.id ≠ r) →
        (send st r m).1.sched.tasks =
          if t'.state = TaskState.Blocked
          then st.sched.tasks.set j { t' with state := TaskState.Ready }
          else st.sched.tasks)) := by
  cases h : mbLookup st.mailboxes r with
  | none =>
    refine ⟨?_, ?_, ?_⟩
    · simp [send, h]
    · intro _
      simp [send, h]
    · intro q hq
      cases hq
  | some q0 =>
    refine ⟨?_, ?_, ?_⟩
    · simp [send, h]
    · intro hnone
      cases hnone
    · intro q hq
      injection hq with hq
      subst hq
      refine ⟨by simp [send, h], ?_, ?_, by simp [send, h], ?_, ?_⟩
      · show mbLookup (send st r m).1.mailboxes r = some (q0 ++ [m])
        simp [send, h, mbLookup_mbUpdate_self]
      · intro k hk
        simp [send, h, mbLookup_mbUpdate_ne _ _ _ _ hk]
      · intro hno
        simp only [send, h]
        exact mapFirstId_of_forall_ne _ _ _ hno
      · intro j t' hj hid hfirst
        simp only [send, h]
        show wakeFirst st.sched.tasks r = _
        rw [wakeFirst, mapFirstId_eq_set _ _ _ j t' hj hid hfirst]
        by_cases hb : t'.state = TaskState.Blocked
        · simp [hb]
        · rw [if_neg hb, if_neg hb, list_set_get?_self _ _ _ hj]

/-- Witness for `send_spec`: sending to a blocked single-task receiver. -/
theorem send_spec_witness :
    (send ⟨⟨[⟨7, TaskState.Blocked, default, 0⟩], 0⟩, [(7, [])]⟩ 7 42).2 = true :=
  ((send_spec ⟨⟨[⟨7, TaskState.Blocked, default, 0⟩], 0⟩, [(7, [])]⟩ 7 42).2.2 [] rfl).1

/-- C8: `send(r, m)` into an empty existing mailbox followed by a `receive`
performed by task `r` (the task at the current slot) yields `m`, and `r`'s
mailbox is empty afterwards. -/
theorem send_receive_roundtrip (st : KState) (r m : Nat) (cur : Task)
    (hcur : st.sched.tasks.get? st.sched.current_task = some cur)
    (hid : cur.id = r)
    (hbox : mbLookup st.mailboxes r = some []) :
    (send st r m).2 = true ∧
    ∃ st', receiveIter (send st r m).1 = RecvResult.msg m st' ∧
      mbLookup st'.mailboxes r = some [] ∧
      st'.sched = (send st r m).1.sched := by
  have hsend1 : (send st r m).1 =
      ⟨⟨wakeFirst st.sched.tasks r, st.sched.current_task⟩,
        mbUpdate st.mailboxes r (fun q => q ++ [m])⟩ := by
    simp [send, hbox]
  have hsend2 : (send st r m).2 = true := by simp [send, hbox]
  refine ⟨hsend2, ?_⟩
  -- the task at the current slot of the post-send state still has id `r`
  have hidmap : ((wakeFirst st.sched.tasks r).get? st.sched.current_task).map Task.id
      = some r := by
    rw [wakeFirst, mapFirstId_id _ (by intro t; split <;> rfl), hcur]
    simp [hid]
  obtain ⟨cur', hcur', hcurid⟩ :
      ∃ c', (wakeFirst st.sched.tasks r).get? st.sched.current_task = some c' ∧
        c'.id = r := by
    cases hg : (wakeFirst st.sched.tasks r).get? st.sched.current_task with
    | none => rw [hg] at hidmap; cases hidmap
    | some c' =>
      rw [hg] at hidmap
      exact ⟨c', rfl, by simpa using hidmap⟩
  have hlook : mbLookup (mbUpdate st.mailboxes r (fun q => q ++ [m])) r = some [m] := by
    rw [mbLookup_mbUpdate_self, hbox]
    rfl
  refine ⟨⟨⟨wakeFirst st.sched.tasks r, st.sched.current_task⟩,
    mbUpdate (mbUpdate st.mailboxes r (fun q => q ++ [m])) r (fun _ => [])⟩, ?_, ?_, ?_⟩
  · rw [hsend1]
    simp only [receiveIter, hcur', hcurid, hlook]
  · rw [mbLookup_mbUpdate_self, hlook]
    rfl
  · rw [hsend1]

/-- Witness for `send_receive_roundtrip` at a concrete state. -/
theorem send_receive_roundtrip_witness :
    (send ⟨⟨[⟨7, TaskState.Running, default, 0⟩], 0⟩, [(7, [])]⟩ 7 42).2 = true :=
  (send_receive_roundtrip ⟨⟨[⟨7, TaskState.Running, default, 0⟩], 0⟩, [(7, [])]⟩
    7 42 ⟨7, TaskState.Running, default, 0⟩ rfl rfl rfl).1

/-- C10: when the current slot is a valid index and the current task's id has
a mailbox, `current_task_id` and one `receive` iteration cannot panic (the
indexing and the `unwrap`s succeed); when the current task's id has no
mailbox, `receive` panics on the `unwrap` instead of blocking. -/
theorem receive_unwrap_safe :
    (∀ (st : KState) (cur : Task) (box : List Nat),
      st.sched.tasks.get? st.sched.current_task = some cur →
      mbLookup st.mailboxes cur.id = some box →
      st.sched.current_task_id = some cur.id ∧ receiveIter st ≠ RecvResult.panic) ∧
    (∀ (st : KState) (cur : Task),
      st.sched.tasks.get? st.sched.current_task = some cur →
      mbLookup st.mailboxes cur.id = none →
      receiveIter st = RecvResult.panic) := by
  constructor
  · intro st cur box hcur hbox
    constructor
    · rw [Scheduler.current_task_id, hcur]
      rfl
    · have hmem : cur ∈ st.sched.tasks := by
        have := List.get?_eq_some.mp hcur
        obtain ⟨hlt, hget⟩ := this
        rw [← hget]
        exact List.get_mem _ _ _
      have hcur' : st.sched.tasks[st.sched.current_task]? = some cur := by
        rw [← List.get?_eq_getElem?]
        exact hcur
      cases box with
      | nil =>
        have hex : ∃ x ∈ st.sched.tasks, x.id = cur.id := ⟨cur, hmem, rfl⟩
        simp [receiveIter, hcur', hbox, hex]
      | cons b bs =>
        simp [receiveIter, hcur', hbox]
  · intro st cur hcur hnone
    have hcur' : st.sched.tasks[st.sched.current_task]? = some cur := by
      rw [← List.get?_eq_getElem?]
      exact hcur
    simp [receiveIter, hcur', hnone]

/-- Witness for `receive_unwrap_safe`: both halves at concrete states. -/
theorem receive_unwrap_safe_witness :
    receiveIter ⟨⟨[⟨7, TaskState.Running, default, 0⟩], 0⟩, [(7, [5])]⟩ ≠ RecvResult.panic ∧
    receiveIter ⟨⟨[⟨7, TaskState.Running, default, 0⟩], 0⟩, []⟩ = RecvResult.panic :=
  ⟨(receive_unwrap_safe.1 ⟨⟨[⟨7, TaskState.Running, default, 0⟩], 0⟩, [(7, [5])]⟩
      ⟨7, TaskState.Running, default, 0⟩ [5] rfl rfl).2,
   receive_unwrap_safe.2 ⟨⟨[⟨7, TaskState.Running, default, 0⟩], 0⟩, []⟩
      ⟨7, TaskState.Running, default, 0⟩ rfl rfl⟩

/-! ## The scheduler scan -/

/-- The indices inspected by the selection policy of the spec, in order:
starting at `(c + 1) % N`, scanning forward, stopping when the scan wraps
back to `c` (for `N ≥ 2` these are the `N - 1` indices other than `c`). -/
def cyclicScan (N c : Nat) : List Nat :=
  (List.range (N - 1)).map (fun k => (c + 1 + k) % N)

/-- Whether the task at index `j` is `Ready`. -/
def isReadyIdx (tasks : List Task) (j : Nat) : Bool :=
  (tasks.getD j default).state = TaskState.Ready

/-- The first `Ready` index in cyclic scan order, if any. -/
def firstReadyIdx (tasks : List Task) (c : Nat) : Option Nat :=
  (cyclicScan tasks.length c).find? (isReadyIdx tasks)

theorem add_mod_eq_self_aux {N c e : Nat} (hc : c < N) (he : e < N)
    (h : (c + e) % N = c) : e = 0 := by
  rcases Nat.lt_or_ge (c + e) N with hlt | hge
  · rw [Nat.mod_eq_of_lt hlt] at h
    omega
  · have h2 : (c + e) % N = c + e - N := by
      rw [Nat.mod_eq_sub_mod hge, Nat.mod_eq_of_lt (by omega)]
    omega

theorem scanLoop_some_lt (tasks : List Task) (c : Nat) :
    ∀ (fuel next j : Nat), next < tasks.length →
      scanLoop tasks c fuel next = some (some j) → j < tasks.length := by
  intro fuel
  induction fuel with
  | zero => intro next j _ h; cases h
  | succ f ih =>
    intro next j hnext h
    rw [scanLoop] at h
    split at h
    · cases h
      exact hnext
    · split at h
      · cases h
      · exact ih _ _ (Nat.mod_lt _ (Nat.lt_of_le_of_lt (Nat.zero_le next) hnext)) h

/-- The loop of `schedule` computes the first `Ready` index among the `d`
positions `next, next+1, …` (cyclically), where `d` is the cyclic distance
from `next` to `current`. -/
theorem scanLoop_eq_find (tasks : List Task) (c : Nat) (d : Nat) :
    ∀ (next fuel : Nat), next < tasks.length → 0 < d → d ≤ tasks.length →
      d ≤ fuel → (next + d) % tasks.length = c →
      scanLoop tasks c fuel next =
        some (((List.range d).map (fun k => (next + k) % tasks.length)).find?
          (isReadyIdx tasks)) := by
  induction d with
  | zero => intro next fuel _ h0 _ _ _; cases h0
  | succ d' ih =>
    intro next fuel hnext _ hdN hdf heq
    have hN : 0 < tasks.length := Nat.lt_of_le_of_lt (Nat.zero_le next) hnext
    have hcN : c < tasks.length := heq ▸ Nat.mod_lt _ hN
    cases fuel with
    | zero => omega
    | succ f =>
      rw [scanLoop]
      have hrange : (List.range (d' + 1)).map (fun k => (next + k) % tasks.length) =
          (next % tasks.length) ::
            (List.range d').map (fun k => (((next + 1) % tasks.length) + k) % tasks.length) := by
        rw [List.range_succ_eq_map, List.map_cons, List.map_map]
        refine congrArg₂ _ (by rw [Nat.add_zero]) ?_
        apply List.map_congr_left
        intro k _
        show (next + (k + 1)) % tasks.length = _
        rw [Nat.mod_add_mod]
        ring_nf
      rw [hrange, Nat.mod_eq_of_lt hnext]
      by_cases hready : (tasks.getD next default).state = TaskState.Ready
      · rw [if_pos hready, List.find?_cons]
        have : isReadyIdx tasks next = true := by
          rw [isReadyIdx]
          exact decide_eq_true hready
        rw [this]
      · rw [if_neg hready, List.find?_cons]
        have : isReadyIdx tasks next = false := by
          rw [isReadyIdx]
          exact decide_eq_false hready
        rw [this]
        by_cases hwrap : (next + 1) % tasks.length = c
        · rw [if_pos hwrap]
          -- the scan is about to wrap: the distance must have been 1
          have hd0 : d' = 0 := by
            have h1 : (c + d') % tasks.length = c := by
              have : (next + 1 + d') % tasks.length = c := by
                have : next + (d' + 1) = next + 1 + d' := by ring
                rw [← this]
                exact heq
              calc (c + d') % tasks.length
                  = (((next + 1) % tasks.length) + d') % tasks.length := by rw [hwrap]
                _ = (next + 1 + d') % tasks.length := by rw [Nat.mod_add_mod]
                _ = c := this
            by_cases hd'N : d' < tasks.length
            · exact add_mod_eq_self_aux hcN hd'N h1
            · omega
          subst hd0
          simp
        · rw [if_neg hwrap]
          have hd'pos : 0 < d' := by
            rcases Nat.eq_zero_or_pos d' with h0 | hpos
            · subst h0
              rw [Nat.add_comm next 1] at heq
              exact absurd (by rw [Nat.add_comm 1 next] at heq; exact heq) hwrap
            · exact hpos
          have heq' : ((next + 1) % tasks.length + d') % tasks.length = c := by
            rw [Nat.mod_add_mod]
            have : next + 1 + d' = next + (d' + 1) := by ring
            rw [this]
            exact heq
          exact ih ((next + 1) % tasks.length) f (Nat.mod_lt _ hN) hd'pos
            (by omega) (by omega) heq'

/-- For a scheduler with `N ≥ 2` tasks and a valid current index, the loop of
`schedule` computes exactly the first `Ready` index in cyclic scan order. -/
theorem scanLoop_eq_firstReadyIdx (tasks : List Task) (c : Nat)
    (h2 : 2 ≤ tasks.length) (hc : c < tasks.length) :
    scanLoop tasks c tasks.length ((c + 1) % tasks.length) =
      some (firstReadyIdx tasks c) := by
  have hN : 0 < tasks.length := by omega
  have heq : ((c + 1) % tasks.length + (tasks.length - 1)) % tasks.length = c := by
    rw [Nat.mod_add_mod]
    have : c + 1 + (tasks.length - 1) = c + tasks.length := by omega
    rw [this, Nat.add_mod_right, Nat.mod_eq_of_lt hc]
  rw [scanLoop_eq_find tasks c (tasks.length - 1) ((c + 1) % tasks.length)
    tasks.length (Nat.mod_lt _ hN) (by omega) (by omega) (by omega) heq]
  rw [firstReadyIdx, cyclicScan]
  refine congrArg _ (congrArg₂ _ rfl ?_)
  apply List.map_congr_left
  intro k _
  rw [Nat.mod_add_mod]

/-- Members of the cyclic scan are valid indices different from `c`. -/
theorem mem_cyclicScan {N c j : Nat} (hc : c < N) (hj : j ∈ cyclicScan N c) :
    j < N ∧ j ≠ c := by
  rw [cyclicScan, List.mem_map] at hj
  obtain ⟨k, hk, rfl⟩ := hj
  rw [List.mem_range] at hk
  have hN : 0 < N := by omega
  refine ⟨Nat.mod_lt _ hN, ?_⟩
  intro heq
  have h1k : 1 + k < N := by omega
  have : (c + (1 + k)) % N = c := by
    rw [← Nat.add_assoc]
    exact heq
  have := add_mod_eq_self_aux hc h1k this
  omega

/-- C1: for `N ≥ 2` tasks (and a valid current index, which the scheduler
maintains), `schedule()` scans forward from `(current + 1) mod N` for a
`Ready` task, stopping when found or when the scan wraps back to `current`;
with no `Ready` task it returns none leaving the state unchanged; otherwise,
for the first `Ready` index `j` in cyclic order it sets `current = j`, moves
the outgoing task `Running → Ready` (a `Blocked` outgoing task stays
`Blocked`), makes the incoming task `Running`, leaves every other task
untouched, and returns the (outgoing, incoming) context pair. -/
theorem schedule_spec (s : Scheduler) (h2 : 2 ≤ s.tasks.length)
    (hc : s.current_task < s.tasks.length) :
    (firstReadyIdx s.tasks s.current_task = none →
      s.schedule = SchedResult.noneFound s) ∧
    (∀ j, firstReadyIdx s.tasks s.current_task = some j →
      ∃ s' oc ic, s.schedule = SchedResult.switch s' oc ic ∧
        s'.current_task = j ∧
        j < s.tasks.length ∧ j ≠ s.current_task ∧
        (s.tasks.getD j default).state = TaskState.Ready ∧
        oc = (s.tasks.getD s.current_task default).context ∧
        ic = (s.tasks.getD j default).context ∧
        s'.tasks.length = s.tasks.length ∧
        (∀ i, i ≠ s.current_task → i ≠ j → s'.tasks.get? i = s.tasks.get? i) ∧
        s'.tasks.get? s.current_task = some
          (if (s.tasks.getD s.current_task default).state = TaskState.Running
           then { s.tasks.getD s.current_task default with state := TaskState.Ready }
           else s.tasks.getD s.current_task default) ∧
        s'.tasks.get? j = some
          { s.tasks.getD j default with state := TaskState.Running }) := by
  have hN0 : s.tasks.length ≠ 0 := by omega
  constructor
  · intro hnone
    rw [Scheduler.schedule]
    simp only [hN0, if_false]
    rw [scanLoop_eq_firstReadyIdx s.tasks s.current_task h2 hc, hnone]
  · intro j hj
    have hmem : j ∈ cyclicScan s.tasks.length s.current_task :=
      List.mem_of_find?_eq_some hj
    obtain ⟨hjN, hjc⟩ := mem_cyclicScan hc hmem
    have hready : isReadyIdx s.tasks j = true := List.find?_some hj
    have hreadyP : (s.tasks.getD j default).state = TaskState.Ready :=
      of_decide_eq_true hready
    have hsched : s.schedule = SchedResult.switch
        ⟨(s.tasks.set s.current_task
            (if (s.tasks.getD s.current_task default).state = TaskState.Running
             then { s.tasks.getD s.current_task default with state := TaskState.Ready }
             else s.tasks.getD s.current_task default)).set j
            { s.tasks.getD j default with state := TaskState.Running }, j⟩
        (if (s.tasks.getD s.current_task default).state = TaskState.Running
         then { s.tasks.getD s.current_task default with state := TaskState.Ready }
         else s.tasks.getD s.current_task default).context
        { s.tasks.getD j default with state := TaskState.Running }.context := by
      rw [Scheduler.schedule]
      simp only [hN0, if_false]
      rw [scanLoop_eq_firstReadyIdx s.tasks s.current_task h2 hc, hj]
      simp only [if_pos hc, if_neg (Ne.symm hjc)]
    refine ⟨_, _, _, hsched, rfl, hjN, hjc, hreadyP, ?_, rfl, ?_, ?_, ?_, ?_⟩
    · split <;> rfl
    · simp [List.length_set]
    · intro i hic hij
      rw [List.get?_set_ne _ _ (Ne.symm hij), List.get?_set_ne _ _ (Ne.symm hic)]
    · rw [List.get?_set_ne _ _ hjc, List.get?_set_eq_of_lt _ hc]
    · rw [List.get?_set_eq_of_lt]
      rw [List.length_set]
      exact hjN

/-- Witness for `schedule_spec`: a two-task scheduler with the second task
ready. -/
theorem schedule_spec_witness :
    ∃ s' oc ic,
      Scheduler.schedule ⟨[⟨0, TaskState.Running, default, 0⟩,
        ⟨1, TaskState.Ready, default, 0⟩], 0⟩ = SchedResult.switch s' oc ic ∧
      s'.current_task = 1 := by
  have h := (schedule_spec ⟨[⟨0, TaskState.Running, default, 0⟩,
      ⟨1, TaskState.Ready, default, 0⟩], 0⟩ (by decide) (by decide)).2 1 (by decide)
  obtain ⟨s', oc, ic, hsw, hcur, _⟩ := h
  exact ⟨s', oc, ic, hsw, hcur⟩

/-- C4 (amended): with exactly one task, `schedule()` returns none when that
task is `Running` or `Blocked`; when the only task is `Ready` (the initial
boot case) the source does not succeed but panics, through the out-of-bounds
`first[next_task_index]` in the context-splitting step. -/
theorem schedule_single_task (t : Task) :
    (t.state ≠ TaskState.Ready →
      Scheduler.schedule ⟨[t], 0⟩ = SchedResult.noneFound ⟨[t], 0⟩) ∧
    (t.state = TaskState.Ready →
      Scheduler.schedule ⟨[t], 0⟩ = SchedResult.panic) := by
  constructor <;> intro h <;> simp [Scheduler.schedule, scanLoop, h]

/-- Witness for `schedule_single_task`: a single `Blocked` task and a single
`Ready` task. -/
theorem schedule_single_task_witness :
    Scheduler.schedule ⟨[⟨0, TaskState.Blocked, default, 0⟩], 0⟩ =
      SchedResult.noneFound ⟨[⟨0, TaskState.Blocked, default, 0⟩], 0⟩ ∧
    Scheduler.schedule ⟨[⟨0, TaskState.Ready, default, 0⟩], 0⟩ = SchedResult.panic :=
  ⟨(schedule_single_task ⟨0, TaskState.Blocked, default, 0⟩).1 (by decide),
   (schedule_single_task ⟨0, TaskState.Ready, default, 0⟩).2 rfl⟩

/-- Counterexample to C4 as stated: in the `N == 1` boot case (single
`Ready` task) `schedule()` panics instead of returning the context pair and
making the task `Running`. -/
theorem schedule_single_ready_panics :
    Scheduler.schedule ⟨[⟨0, TaskState.Ready, default, 0⟩], 0⟩ = SchedResult.panic := by
  rfl

/-! ## The running-task invariant -/

/-- Every `Running` task sits at the `current` slot. -/
def runningOnlyAtCurrent (s : Scheduler) : Prop :=
  ∀ i t', s.tasks.get? i = some t' → t'.state = TaskState.Running →
    i = s.current_task

theorem mapFirstId_preserves_inv (f : Task → Task)
    (hf : ∀ t, (f t).state = TaskState.Running → t.state = TaskState.Running)
    (ts : List Task) (i c : Nat)
    (hinv : ∀ i' t', ts.get? i' = some t' → t'.state = TaskState.Running → i' = c) :
    ∀ i' t'', (mapFirstId f ts i).get? i' = some t'' →
      t''.state = TaskState.Running → i' = c := by
  intro i' t'' hg hr
  obtain ⟨t', hget, hcase⟩ := mapFirstId_get? f ts i i' t'' hg
  rcases hcase with rfl | ⟨_, rfl⟩
  · exact hinv i' t'' hget hr
  · exact hinv i' t' hget (hf t' hr)

theorem schedule_noneFound_inv (s s' : Scheduler)
    (h : s.schedule = SchedResult.noneFound s') : s' = s := by
  rw [Scheduler.schedule] at h
  by_cases hN : s.tasks.length = 0
  · simp [hN] at h
  · simp only [hN, if_false] at h
    cases hscan : scanLoop s.tasks s.current_task s.tasks.length
        ((s.current_task + 1) % s.tasks.length) with
    | none => rw [hscan] at h; cases h
    | some o =>
      cases o with
      | none =>
        rw [hscan] at h
        injection h with h1
        exact h1.symm
      | some j =>
        rw [hscan] at h
        by_cases hc : s.current_task < s.tasks.length
        · by_cases hcj : s.current_task = j
          · simp [hc, hcj] at h
          · simp only [if_pos hc, if_neg hcj] at h
            cases h
        · simp [hc] at h

theorem schedule_switch_inv (s s' : Scheduler) (oc ic : TaskContext)
    (h : s.schedule = SchedResult.switch s' oc ic) :
    ∃ j, s.current_task < s.tasks.length ∧ j < s.tasks.length ∧
      j ≠ s.current_task ∧
      s' = ⟨(s.tasks.set s.current_task
          (if (s.tasks.getD s.current_task default).state = TaskState.Running
           then { s.tasks.getD s.current_task default with state := TaskState.Ready }
           else s.tasks.getD s.current_task default)).set j
          { s.tasks.getD j default with state := TaskState.Running }, j⟩ := by
  rw [Scheduler.schedule] at h
  by_cases hN : s.tasks.length = 0
  · simp [hN] at h
  · simp only [hN, if_false] at h
    cases hscan : scanLoop s.tasks s.current_task s.tasks.length
        ((s.current_task + 1) % s.tasks.length) with
    | none => rw [hscan] at h; cases h
    | some o =>
      cases o with
      | none => rw [hscan] at h; cases h
      | some j =>
        rw [hscan] at h
        by_cases hc : s.current_task < s.tasks.length
        · by_cases hcj : s.current_task = j
          · simp [hc, hcj] at h
          · simp only [if_pos hc, if_neg hcj] at h
            injection h with h1 _ _
            exact ⟨j, hc,
              scanLoop_some_lt _ _ _ _ _
                (Nat.mod_lt _ (Nat.pos_of_ne_zero hN)) hscan,
              fun hje => hcj hje.symm, h1.symm⟩
        · simp [hc] at h

theorem switched_inv (s : Scheduler) (j : Nat)
    (hc : s.current_task < s.tasks.length) (hj : j < s.tasks.length)
    (hjc : j ≠ s.current_task)
    (hinv : runningOnlyAtCurrent s) :
    runningOnlyAtCurrent
      ⟨(s.tasks.set s.current_task
          (if (s.tasks.getD s.current_task default).state = TaskState.Running
           then { s.tasks.getD s.current_task default with state := TaskState.Ready }
           else s.tasks.getD s.current_task default)).set j
          { s.tasks.getD j default with state := TaskState.Running }, j⟩ := by
  intro i t'' hg hr
  by_cases hij : i = j
  · exact hij
  · rw [List.get?_set_ne _ _ (fun e => hij e.symm)] at hg
    by_cases hicur : i = s.current_task
    · rw [hicur, List.get?_set_eq_of_lt _ hc] at hg
      injection hg with hg
      rw [← hg] at hr
      by_cases hrun : (s.tasks.getD s.current_task default).state = TaskState.Running
      · rw [if_pos hrun] at hr
        cases hr
      · rw [if_neg hrun] at hr
        exact absurd hr hrun
    · rw [List.get?_set_ne _ _ (fun e => hicur e.symm)] at hg
      exact absurd (hinv i t'' hg hr) hicur

theorem receiveIter_msg_sched {st : KState} {m : Nat} {st' : KState}
    (h : receiveIter st = RecvResult.msg m st') : st'.sched = st.sched := by
  rw [receiveIter] at h
  split at h
  · cases h
  · split at h
    · cases h
    · split at h
      · injection h with _ h2
        rw [← h2]
      · split at h <;> cases h

theorem receiveIter_blocked_sched {st st' : KState}
    (h : receiveIter st = RecvResult.blockedYield st') :
    ∃ my_id, st'.sched.tasks = blockFirst st.sched.tasks my_id ∧
      st'.sched.current_task = st.sched.current_task := by
  rw [receiveIter] at h
  split at h
  · cases h
  · split at h
    · cases h
    · split at h
      · cases h
      · split at h
        · injection h with h1
          rw [← h1]
          exact ⟨_, rfl, rfl⟩
        · cases h

theorem kstep_preserves_inv {g g' : GState} (hs : KStep g g')
    (hinv : runningOnlyAtCurrent g.sched) : runningOnlyAtCurrent g'.sched := by
  cases hs with
  | add id entry stack_top p4 =>
    intro i t' hg hr
    show i = g.sched.current_task
    rcases Nat.lt_or_ge i g.sched.tasks.length with hlt | hge
    · rw [show (addTask g.k (Task.mkNew id entry stack_top p4)).sched.tasks
          = g.sched.tasks ++ [Task.mkNew id entry stack_top p4] from rfl] at hg
      rw [List.get?_append hlt] at hg
      exact hinv i t' hg hr
    · rw [show (addTask g.k (Task.mkNew id entry stack_top p4)).sched.tasks
          = g.sched.tasks ++ [Task.mkNew id entry stack_top p4] from rfl] at hg
      rw [List.get?_append_right hge] at hg
      cases hi : i - g.sched.tasks.length with
      | zero =>
        rw [hi] at hg
        injection hg with hg
        rw [← hg] at hr
        cases hr
      | succ n =>
        rw [hi] at hg
        cases n <;> cases hg
  | sched s' o i h =>
    obtain ⟨j, hc, hj, hjc, rfl⟩ := schedule_switch_inv _ _ _ _ h
    exact switched_inv g.sched j hc hj hjc hinv
  | schedNone s' h =>
    rw [schedule_noneFound_inv _ _ h]
    exact hinv
  | send r m =>
    show runningOnlyAtCurrent (Microkernel.send g.k r m).1.sched
    cases hmb : mbLookup g.mailboxes r with
    | none =>
      simp only [Microkernel.send, GState.k, hmb]
      exact hinv
    | some q =>
      simp only [Microkernel.send, GState.k, hmb]
      intro i t'' hg hr
      refine mapFirstId_preserves_inv _ ?_ g.sched.tasks r g.sched.current_task
        hinv i t'' hg hr
      intro t hrun
      by_cases hb : t.state = TaskState.Blocked
      · rw [if_pos hb] at hrun
        cases hrun
      · rwa [if_neg hb] at hrun
  | recvMsg m st' h =>
    rw [receiveIter_msg_sched h]
    exact hinv
  | recvBlock st' h =>
    obtain ⟨my_id, htasks, hcur⟩ := receiveIter_blocked_sched h
    intro i t'' hg hr
    rw [hcur]
    rw [htasks] at hg
    exact mapFirstId_preserves_inv _ (fun t ht => by cases ht) _ my_id _
      hinv i t'' hg hr
  | downOk h => exact hinv
  | downBlock cur hcur h0 =>
    intro i t'' hg hr
    exact mapFirstId_preserves_inv _ (fun t ht => by cases ht) _ cur.id _
      hinv i t'' hg hr
  | up =>
    cases hpop : (g.sem.upStep).2 with
    | none =>
      intro i t'' hg hr
      simp only [hpop] at hg
      exact hinv i t'' hg hr
    | some woken =>
      intro i t'' hg hr
      simp only [hpop] at hg
      exact mapFirstId_preserves_inv _ (fun t ht => by cases ht) _ woken _
        hinv i t'' hg hr

theorem reachable_running_inv (g : GState) (h : Reachable g) :
    runningOnlyAtCurrent g.sched := by
  induction h with
  | init n =>
    intro i t' hg _
    cases i <;> cases hg
  | step hr hs ih => exact kstep_preserves_inv hs ih

theorem countP_le_one_of_unique (l : List Task) (p : Task → Bool) (c : Nat)
    (h : ∀ i t', l.get? i = some t' → p t' = true → i = c) :
    l.countP p ≤ 1 := by
  induction l generalizing c with
  | nil => simp [List.countP_nil]
  | cons t ts ih =>
    rw [List.countP_cons]
    by_cases hp : p t = true
    · have hc0 : 0 = c := h 0 t rfl hp
      have hzero : ts.countP p = 0 := by
        rw [List.countP_eq_zero]
        intro a ha hpa
        obtain ⟨n, hn⟩ := List.get?_of_mem ha
        have := h (n + 1) a (by simpa [List.get?] using hn) hpa
        omega
      simp [hp, hzero]
    · simp only [hp, if_false, Nat.add_zero]
      refine ih (c - 1) ?_
      intro i t' hget hpt
      have := h (i + 1) t' (by simpa [List.get?] using hget) hpt
      omega

/-- C2: in every state reachable from the empty scheduler by `add_task`,
`schedule`, `send`, `receive`, `Semaphore::down` and `Semaphore::up`, at most
one task is `Running`; when exactly one is, it is the task at index
`current`; and every successful `schedule()` leaves exactly one `Running`
task, the one at the new `current` index. -/
theorem running_invariant (g : GState) (hr : Reachable g) :
    g.sched.tasks.countP (fun t => decide (t.state = TaskState.Running)) ≤ 1 ∧
    (g.sched.tasks.countP (fun t => decide (t.state = TaskState.Running)) = 1 →
      ∃ t', g.sched.tasks.get? g.sched.current_task = some t' ∧
        t'.state = TaskState.Running) ∧
    (∀ s' oc ic, g.sched.schedule = SchedResult.switch s' oc ic →
      s'.tasks.countP (fun t => decide (t.state = TaskState.Running)) = 1 ∧
      ∃ t', s'.tasks.get? s'.current_task = some t' ∧
        t'.state = TaskState.Running) := by
  have hinv := reachable_running_inv g hr
  refine ⟨?_, ?_, ?_⟩
  · exact countP_le_one_of_unique _ _ g.sched.current_task
      (fun i t' hg hp => hinv i t' hg (of_decide_eq_true hp))
  · intro h1
    have hpos : 0 < g.sched.tasks.countP
        (fun t => decide (t.state = TaskState.Running)) := by omega
    obtain ⟨a, ha, hpa⟩ := List.countP_pos.mp hpos
    obtain ⟨n, hn⟩ := List.get?_of_mem ha
    have hrun : a.state = TaskState.Running := of_decide_eq_true hpa
    have := hinv n a hn hrun
    subst this
    exact ⟨a, hn, hrun⟩
  · intro s' oc ic hsw
    obtain ⟨j, hc, hj, hjc, rfl⟩ := schedule_switch_inv _ _ _ _ hsw
    have hinv' := switched_inv g.sched j hc hj hjc hinv
    have hatj : ((g.sched.tasks.set g.sched.current_task
        (if (g.sched.tasks.getD g.sched.current_task default).state = TaskState.Running
         then { g.sched.tasks.getD g.sched.current_task default with state := TaskState.Ready }
         else g.sched.tasks.getD g.sched.current_task default)).set j
        { g.sched.tasks.getD j default with state := TaskState.Running }).get? j =
        some { g.sched.tasks.getD j default with state := TaskState.Running } := by
      rw [List.get?_set_eq_of_lt]
      rw [List.length_set]
      exact hj
    constructor
    · have hle := countP_le_one_of_unique _
        (fun t => decide (t.state = TaskState.Running)) j
        (fun i t' hg hp => hinv' i t' hg (of_decide_eq_true hp))
      have hpos : 0 < ((g.sched.tasks.set g.sched.current_task
          (if (g.sched.tasks.getD g.sched.current_task default).state = TaskState.Running
           then { g.sched.tasks.getD g.sched.current_task default with state := TaskState.Ready }
           else g.sched.tasks.getD g.sched.current_task default)).set j
          { g.sched.tasks.getD j default with state := TaskState.Running }).countP
          (fun t => decide (t.state = TaskState.Running)) := by
        rw [List.countP_pos]
        exact ⟨_, List.get?_mem hatj, by simp⟩
      exact Nat.le_antisymm hle hpos
    · exact ⟨_, hatj, rfl⟩

/-- Witness for `running_invariant`: the state reached by adding one task to
the boot state. -/
theorem running_invariant_witness :
    (⟨(addTask (GState.init 0).k (Task.mkNew 0 1 2 3)).sched,
      (addTask (GState.init 0).k (Task.mkNew 0 1 2 3)).mailboxes,
      (GState.init 0).sem⟩ : GState).sched.tasks.countP
      (fun t => decide (t.state = TaskState.Running)) ≤ 1 :=
  (running_invariant _ (Reachable.step (Reachable.init 0)
    (KStep.add (GState.init 0) 0 1 2 3))).1

/-! ## Semaphore accounting -/

theorem runHistory_counter (h : List SemEvent) :
    ∀ (s0 s : Semaphore), s0.counter < USIZE_MOD → runHistory s0 h = some s →
      countDownOk h ≤ s0.counter + countUp h ∧
      s.counter < USIZE_MOD ∧
      s.counter = (s0.counter + countUp h - countDownOk h) % USIZE_MOD := by
  induction h with
  | nil =>
    intro s0 s h0 hr
    injection hr with hr
    subst hr
    simp [countUp, countDownOk, List.countP_nil, Nat.mod_eq_of_lt h0, h0]
  | cons e es ih =>
    intro s0 s h0 hr
    cases e with
    | downOk =>
      by_cases hpos : s0.counter > 0
      · simp only [runHistory, semStep, if_pos hpos] at hr
        obtain ⟨h1, h2, h3⟩ := ih s0.downOk s (by
          show s0.counter - 1 < USIZE_MOD
          omega) hr
        have hcu : countUp (SemEvent.downOk :: es) = countUp es := by
          simp [countUp, List.countP_cons]
        have hcd : countDownOk (SemEvent.downOk :: es) = countDownOk es + 1 := by
          simp [countDownOk, List.countP_cons]
        rw [hcu, hcd]
        have hdown : (Semaphore.downOk s0).counter = s0.counter - 1 := rfl
        rw [hdown] at h1 h3
        refine ⟨by omega, h2, ?_⟩
        rw [h3]
        have : s0.counter - 1 + countUp es - countDownOk es =
            s0.counter + countUp es - (countDownOk es + 1) := by omega
        rw [this]
      · simp only [runHistory, semStep, if_neg hpos] at hr
        cases hr
    | downBlock i =>
      by_cases hz : s0.counter = 0
      · simp only [runHistory, semStep, if_pos hz] at hr
        obtain ⟨h1, h2, h3⟩ := ih (s0.downBlock i) s (by
          show s0.counter < USIZE_MOD
          exact h0) hr
        have hcu : countUp (SemEvent.downBlock i :: es) = countUp es := by
          simp [countUp, List.countP_cons]
        have hcd : countDownOk (SemEvent.downBlock i :: es) = countDownOk es := by
          simp [countDownOk, List.countP_cons]
        rw [hcu, hcd]
        exact ⟨h1, h2, h3⟩
      · simp only [runHistory, semStep, if_neg hz] at hr
        cases hr
    | up =>
      simp only [runHistory, semStep] at hr
      have hWpos : 0 < USIZE_MOD := by
        rw [USIZE_MOD]
        exact Nat.pos_pow_of_pos 64 (by omega)
      obtain ⟨h1, h2, h3⟩ := ih (s0.upStep).1 s (Nat.mod_lt _ hWpos) hr
      have hcu : countUp (SemEvent.up :: es) = countUp es + 1 := by
        simp [countUp, List.countP_cons]
      have hcd : countDownOk (SemEvent.up :: es) = countDownOk es := by
        simp [countDownOk, List.countP_cons]
      rw [hcu, hcd]
      have hup : (Semaphore.upStep s0).1.counter = (s0.counter + 1) % USIZE_MOD := rfl
      rw [hup] at h1 h3
      have hmodle : (s0.counter + 1) % USIZE_MOD ≤ s0.counter + 1 := Nat.mod_le _ _
      refine ⟨by omega, h2, ?_⟩
      rw [h3]
      -- push the modulus of the incremented counter out of the subtraction
      have hsplit : s0.counter + 1 + countUp es - countDownOk es =
          USIZE_MOD * ((s0.counter + 1) / USIZE_MOD) +
            ((s0.counter + 1) % USIZE_MOD + countUp es - countDownOk es) := by
        have hdm := Nat.div_add_mod (s0.counter + 1) USIZE_MOD
        omega
      have hcomm : s0.counter + (countUp es + 1) - countDownOk es =
          s0.counter + 1 + countUp es - countDownOk es := by omega
      rw [hcomm, hsplit, Nat.mul_add_mod]

/-- Counterexample to C7 as stated: with `initial = 0`, a single `down` call
that parks its caller leaves `counter = 0` and one waiter, so
`counter + #waiters + #down_completed = 1` while `initial + #up = 0`. -/
theorem sem_balance_counterexample :
    ¬ (∀ (initial : Nat) (h : List SemEvent) (s : Semaphore),
        runHistory (Semaphore.new initial) h = some s →
        s.counter + s.waiting_tasks.length + countDownOk h =
          initial + countUp h) := by
  intro H
  have h2 := H 0 [SemEvent.downBlock 0] ⟨0, [0]⟩ rfl
  exact absurd h2 (by decide)

/-- C7 (amended): in every state of a semaphore history from
`Semaphore::new(initial)`, the counter alone balances the operation counts:
`counter = (initial + #up - #down_completed) mod 2^64` (and
`#down_completed ≤ initial + #up`); the waiter count does not enter the
equation, because a parked `down` enqueues a waiter without touching the
counter and `up` pops a waiter while also incrementing the counter. -/
theorem sem_counter_balance (initial : Nat) (hinit : initial < USIZE_MOD)
    (h : List SemEvent) (s : Semaphore)
    (hr : runHistory (Semaphore.new initial) h = some s) :
    countDownOk h ≤ initial + countUp h ∧
    s.counter = (initial + countUp h - countDownOk h) % USIZE_MOD := by
  obtain ⟨h1, _, h3⟩ := runHistory_counter h (Semaphore.new initial) s hinit hr
  exact ⟨h1, h3⟩

/-- Witness for `sem_counter_balance`: `down` then `up` from initial 1. -/
theorem sem_counter_balance_witness :
    countDownOk [SemEvent.downOk, SemEvent.up] ≤
      1 + countUp [SemEvent.downOk, SemEvent.up] ∧
    (⟨1, []⟩ : Semaphore).counter =
      (1 + countUp [SemEvent.downOk, SemEvent.up] -
        countDownOk [SemEvent.downOk, SemEvent.up]) % USIZE_MOD :=
  sem_counter_balance 1 (by decide) [SemEvent.downOk, SemEvent.up] ⟨1, []⟩ (by decide)

/-! ## Heap bootstrap -/

/-- The `n` frames the allocator hands out starting from its cursor. -/
def heapFrames (a : BootInfoFrameAllocator) (n : Nat) : List Nat :=
  (List.range n).map (fun k => (usableFrames a.memory_map).getD (a.next + k) 0)

theorem initHeapLoop_spec (ps : List Nat) :
    ∀ (m : Mapper) (a : BootInfoFrameAllocator),
      ps.Nodup → (∀ p ∈ ps, ∀ e ∈ m, e.1 ≠ p) →
      (a.next + ps.length ≤ (usableFrames a.memory_map).length →
        initHeapLoop ps m a = Except.ok
          (m ++ (ps.zip (heapFrames a ps.length)).map
            (fun pf => (pf.1, pf.2, ⟨true, true⟩)),
           ⟨a.memory_map, a.next + ps.length⟩)) ∧
      (0 < ps.length → (usableFrames a.memory_map).length < a.next + ps.length →
        initHeapLoop ps m a = Except.error MapToError.FrameAllocationFailed) := by
  induction ps with
  | nil =>
    intro m a _ _
    constructor
    · intro _
      simp [initHeapLoop, heapFrames]
    · intro hpos _
      simp at hpos
  | cons p ps' ih =>
    intro m a hnodup hfresh
    have hnodup' : ps'.Nodup := hnodup.of_cons
    have hpnotmem : p ∉ ps' := by
      intro hmem
      exact (List.nodup_cons.mp hnodup).1 hmem
    constructor
    · intro hle
      have hnlt : a.next < (usableFrames a.memory_map).length := by
        simp only [List.length_cons] at hle
        omega
      obtain ⟨f, hg⟩ : ∃ f, (usableFrames a.memory_map).get? a.next = some f := by
        cases hg : (usableFrames a.memory_map).get? a.next with
        | none => exact absurd (List.get?_eq_none.mp hg) (by omega)
        | some f => exact ⟨f, rfl⟩
      have hgd : (usableFrames a.memory_map).getD a.next 0 = f := by
        rw [List.getD_eq_get?, hg]
        rfl
      have hany : (m.any (fun e => decide (e.1 = p))) = false := by
        rw [List.any_eq_false]
        intro e he
        simp only [decide_eq_true_eq]
        exact hfresh p (List.mem_cons_self p ps') e he
      have hstep : initHeapLoop (p :: ps') m a =
          initHeapLoop ps' (m ++ [(p, f, ⟨true, true⟩)]) ⟨a.memory_map, a.next + 1⟩ := by
        rw [initHeapLoop]
        simp only [BootInfoFrameAllocator.allocate_frame, hg, mapTo, hany,
          Bool.false_eq_true, if_false]
      rw [hstep]
      have hfresh' : ∀ q ∈ ps', ∀ e ∈ m ++ [(p, f, ⟨true, true⟩)], e.1 ≠ q := by
        intro q hq e he
        rcases List.mem_append.mp he with hem | hep
        · exact hfresh q (List.mem_cons_of_mem p hq) e hem
        · rcases List.mem_singleton.mp hep with rfl
          show p ≠ q
          intro hpq
          exact hpnotmem (hpq ▸ hq)
      have hle' : (⟨a.memory_map, a.next + 1⟩ : BootInfoFrameAllocator).next + ps'.length ≤
          (usableFrames a.memory_map).length := by
        simp only [List.length_cons] at hle
        simpa using (by omega : a.next + 1 + ps'.length ≤ (usableFrames a.memory_map).length)
      rw [(ih (m ++ [(p, f, ({ present := true, writable := true } : PageFlags))])
        ⟨a.memory_map, a.next + 1⟩ hnodup' hfresh').1 hle']
      have hframes : heapFrames a (p :: ps').length =
          f :: heapFrames ⟨a.memory_map, a.next + 1⟩ ps'.length := by
        rw [heapFrames, heapFrames, List.length_cons, List.range_succ_eq_map,
          List.map_cons, List.map_map]
        refine congrArg₂ _ (by rw [Nat.add_zero, hgd]) ?_
        apply List.map_congr_left
        intro k _
        show (usableFrames a.memory_map).getD (a.next + (k + 1)) 0 =
          (usableFrames a.memory_map).getD (a.next + 1 + k) 0
        refine congrArg₂ _ ?_ rfl
        omega
      rw [hframes, List.zip_cons_cons, List.map_cons]
      refine congrArg _ (congrArg₂ _ ?_ ?_)
      · simp
      · refine congrArg _ ?_
        show a.next + 1 + ps'.length = a.next + (p :: ps').length
        simp only [List.length_cons]
        omega
    · intro _ hlt
      rcases Nat.lt_or_ge a.next (usableFrames a.memory_map).length with hnlt | hnge
      · obtain ⟨f, hg⟩ : ∃ f, (usableFrames a.memory_map).get? a.next = some f := by
          cases hg : (usableFrames a.memory_map).get? a.next with
          | none => exact absurd (List.get?_eq_none.mp hg) (by omega)
          | some f => exact ⟨f, rfl⟩
        have hany : (m.any (fun e => decide (e.1 = p))) = false := by
          rw [List.any_eq_false]
          intro e he
          simp only [decide_eq_true_eq]
          exact hfresh p (List.mem_cons_self p ps') e he
        have hstep : initHeapLoop (p :: ps') m a =
            initHeapLoop ps' (m ++ [(p, f, ⟨true, true⟩)]) ⟨a.memory_map, a.next + 1⟩ := by
          rw [initHeapLoop]
          simp only [BootInfoFrameAllocator.allocate_frame, hg, mapTo, hany,
            Bool.false_eq_true, if_false]
        rw [hstep]
        have hfresh' : ∀ q ∈ ps', ∀ e ∈ m ++ [(p, f, ⟨true, true⟩)], e.1 ≠ q := by
          intro q hq e he
          rcases List.mem_append.mp he with hem | hep
          · exact hfresh q (List.mem_cons_of_mem p hq) e hem
          · rcases List.mem_singleton.mp hep with rfl
            show p ≠ q
            intro hpq
            exact hpnotmem (hpq ▸ hq)
        have hpos' : 0 < ps'.length := by
          simp only [List.length_cons] at hlt
          omega
        have hlt' : (usableFrames a.memory_map).length <
            (⟨a.memory_map, a.next + 1⟩ : BootInfoFrameAllocator).next + ps'.length := by
          simp only [List.length_cons] at hlt
          simpa using (by omega : (usableFrames a.memory_map).length < a.next + 1 + ps'.length)
        exact (ih (m ++ [(p, f, ⟨true, true⟩)]) ⟨a.memory_map, a.next + 1⟩
          hnodup' hfresh').2 hpos' hlt'
      · have hg : (usableFrames a.memory_map).get? a.next = none :=
          List.get?_len_le hnge
        rw [initHeapLoop]
        simp only [BootInfoFrameAllocator.allocate_frame, hg]

theorem heapPages_eq :
    heapPages = (List.range 25).map (fun k => HEAP_START + 4096 * k) := by
  decide

theorem heapPages_nodup : heapPages.Nodup := by
  rw [heapPages_eq]
  exact List.Nodup.map (fun x y hxy => by omega) (List.nodup_range 25)

theorem heapPages_mem (p : Nat) :
    p ∈ heapPages ↔
      (p % 4096 = 0 ∧ HEAP_START ≤ p ∧ p < HEAP_START + HEAP_SIZE) := by
  rw [heapPages_eq]
  simp only [List.mem_map, List.mem_range]
  constructor
  · rintro ⟨k, hk, rfl⟩
    simp only [HEAP_START, HEAP_SIZE]
    omega
  · rintro ⟨hmod, hlo, hhi⟩
    refine ⟨(p - HEAP_START) / 4096, ?_, ?_⟩ <;>
      simp only [HEAP_START, HEAP_SIZE] at hlo hhi ⊢ <;> omega

/-- C5: `init_heap` walks exactly the 4 KiB pages of
`[HEAP_START, HEAP_START + HEAP_SIZE)` (each page once), maps each to the
next freshly allocated frame with present+writable flags, returns the
frame-allocation-failed error when the allocator runs out, and initializes
the heap allocator over the range only after all mappings succeed.  The
hypothesis `hm` says no heap page is already mapped (the boot mapper state),
which rules out the `PageAlreadyMapped` error. -/
theorem init_heap_spec (m : Mapper) (a : BootInfoFrameAllocator)
    (hm : ∀ p ∈ heapPages, ∀ e ∈ m, e.1 ≠ p) :
    (∀ p, p ∈ heapPages ↔
      (p % 4096 = 0 ∧ HEAP_START ≤ p ∧ p < HEAP_START + HEAP_SIZE)) ∧
    heapPages.Nodup ∧
    (a.next + heapPages.length ≤ (usableFrames a.memory_map).length →
      initHeap m a = (Except.ok
        (m ++ (heapPages.zip (heapFrames a heapPages.length)).map
          (fun pf => (pf.1, pf.2, ⟨true, true⟩)),
         ⟨a.memory_map, a.next + heapPages.length⟩),
        some (HEAP_START, HEAP_SIZE))) ∧
    ((usableFrames a.memory_map).length < a.next + heapPages.length →
      initHeap m a = (Except.error MapToError.FrameAllocationFailed, none)) := by
  have hloop := initHeapLoop_spec heapPages m a heapPages_nodup hm
  refine ⟨heapPages_mem, heapPages_nodup, ?_, ?_⟩
  · intro hle
    rw [initHeap, hloop.1 hle]
  · intro hlt
    rw [initHeap, hloop.2 (by rw [heapPages_eq]; decide) hlt]

/-- Witness for `init_heap_spec`: with an empty memory map the heap mapping
fails hard and the heap allocator is not initialized. -/
theorem init_heap_spec_witness :
    initHeap [] (BootInfoFrameAllocator.init []) =
      (Except.error MapToError.FrameAllocationFailed, none) :=
  (init_heap_spec [] (BootInfoFrameAllocator.init [])
    (fun _ _ e he => absurd he (List.not_mem_nil e))).2.2.2 (by decide)

/-! ## Frame allocator distinctness -/

theorem mem_regionAddrs {r : MemoryRegion} {a : Nat} (h : a ∈ regionAddrs r) :
    r.start_addr ≤ a ∧ a < r.end_addr := by
  rw [regionAddrs, List.mem_map] at h
  obtain ⟨k, hk, rfl⟩ := h
  rw [List.mem_range] at hk
  constructor
  · exact Nat.le_add_right _ _
  · omega

theorem regionAddrs_nodup (r : MemoryRegion) : (regionAddrs r).Nodup := by
  rw [regionAddrs]
  exact List.Nodup.map (fun x y hxy => by omega) (List.nodup_range _)

theorem usableFrames_eq_addrs (map : List MemoryRegion)
    (ha : ∀ r ∈ map, r.region_type = MemoryRegionType.Usable →
      r.start_addr % 4096 = 0) :
    usableFrames map =
      (map.filter (fun r => decide (r.region_type = MemoryRegionType.Usable))).flatMap
        regionAddrs := by
  rw [usableFrames]
  have hall : ∀ a ∈ (map.filter
      (fun r => decide (r.region_type = MemoryRegionType.Usable))).flatMap
      regionAddrs, frameContaining a = a := by
    intro a hmem
    rw [List.mem_flatMap] at hmem
    obtain ⟨r, hr, har⟩ := hmem
    obtain ⟨hrm, hru⟩ := List.mem_filter.mp hr
    have hstart : r.start_addr % 4096 = 0 := ha r hrm (of_decide_eq_true hru)
    rw [regionAddrs, List.mem_map] at har
    obtain ⟨k, _, rfl⟩ := har
    rw [frameContaining]
    omega
  calc ((map.filter (fun r => decide (r.region_type = MemoryRegionType.Usable))).flatMap
        regionAddrs).map frameContaining
      = ((map.filter (fun r => decide (r.region_type = MemoryRegionType.Usable))).flatMap
        regionAddrs).map id := List.map_congr_left hall
    _ = _ := List.map_id _

theorem usableFrames_nodup (map : List MemoryRegion)
    (hd : (map.filter
      (fun r => decide (r.region_type = MemoryRegionType.Usable))).Pairwise
      (fun r1 r2 => r1.end_addr ≤ r2.start_addr ∨ r2.end_addr ≤ r1.start_addr))
    (ha : ∀ r ∈ map, r.region_type = MemoryRegionType.Usable →
      r.start_addr % 4096 = 0) :
    (usableFrames map).Nodup := by
  rw [usableFrames_eq_addrs map ha, List.nodup_flatMap]
  constructor
  · intro r _
    exact regionAddrs_nodup r
  · refine hd.imp ?_
    intro r1 r2 hdisj a ha1 ha2
    obtain ⟨hlo1, hhi1⟩ := mem_regionAddrs ha1
    obtain ⟨hlo2, hhi2⟩ := mem_regionAddrs ha2
    rcases hdisj with h12 | h21 <;> omega

theorem nodup_get?_ne {α : Type _} (l : List α) (h : l.Nodup) {n1 n2 : Nat}
    {a b : α} (hne : n1 ≠ n2) (h1 : l.get? n1 = some a)
    (h2 : l.get? n2 = some b) : a ≠ b := by
  obtain ⟨hl1, hg1⟩ := List.get?_eq_some.mp h1
  obtain ⟨hl2, hg2⟩ := List.get?_eq_some.mp h2
  have hp := List.pairwise_iff_get.mp h
  rcases Nat.lt_or_ge n1 n2 with hlt | hge
  · have := hp ⟨n1, hl1⟩ ⟨n2, hl2⟩ hlt
    rw [hg1, hg2] at this
    exact this
  · have hlt2 : n2 < n1 := by omega
    have := hp ⟨n2, hl2⟩ ⟨n1, hl1⟩ hlt2
    rw [hg1, hg2] at this
    exact fun he => this he.symm

/-- Counterexample to C6 as stated: for a memory map whose usable regions
overlap, two successive `allocate_frame` calls return the same frame
address. -/
theorem allocate_frame_repeat_counterexample :
    ((BootInfoFrameAllocator.init [⟨0, 4096, MemoryRegionType.Usable⟩,
        ⟨0, 4096, MemoryRegionType.Usable⟩]).allocate_frame).1 = some 0 ∧
    (((BootInfoFrameAllocator.init [⟨0, 4096, MemoryRegionType.Usable⟩,
        ⟨0, 4096, MemoryRegionType.Usable⟩]).allocate_frame).2.allocate_frame).1 =
      some 0 := by
  decide

/-- C6 (amended): `allocate_frame` yields the `next`-th element of the
concatenation of the usable regions stepped by 4096 bytes, then increments
`next`; it returns none once `next` is past the end of that sequence; and —
provided the usable regions are pairwise non-overlapping and their start
addresses are 4 KiB aligned (true of firmware memory maps, but not of every
value of the type) — no frame address is ever returned twice. -/
theorem allocate_frame_spec (map : List MemoryRegion)
    (hd : (map.filter
      (fun r => decide (r.region_type = MemoryRegionType.Usable))).Pairwise
      (fun r1 r2 => r1.end_addr ≤ r2.start_addr ∨ r2.end_addr ≤ r1.start_addr))
    (ha : ∀ r ∈ map, r.region_type = MemoryRegionType.Usable →
      r.start_addr % 4096 = 0) :
    (∀ n : Nat, (BootInfoFrameAllocator.mk map n).allocate_frame =
      ((usableFrames map).get? n, ⟨map, n + 1⟩)) ∧
    (∀ n, (usableFrames map).length ≤ n →
      ((BootInfoFrameAllocator.mk map n).allocate_frame).1 = none) ∧
    (∀ n1 n2 f1 f2, n1 ≠ n2 →
      ((BootInfoFrameAllocator.mk map n1).allocate_frame).1 = some f1 →
      ((BootInfoFrameAllocator.mk map n2).allocate_frame).1 = some f2 →
      f1 ≠ f2) := by
  refine ⟨fun n => rfl, ?_, ?_⟩
  · intro n hn
    show (usableFrames map).get? n = none
    exact List.get?_len_le hn
  · intro n1 n2 f1 f2 hne h1 h2
    exact nodup_get?_ne _ (usableFrames_nodup map hd ha) hne h1 h2

/-- Witness for `allocate_frame_spec`: two disjoint aligned regions yield
distinct frames on distinct calls. -/
theorem allocate_frame_spec_witness :
    ((BootInfoFrameAllocator.mk [⟨0, 4096, MemoryRegionType.Usable⟩,
        ⟨8192, 12288, MemoryRegionType.Usable⟩] 0).allocate_frame).1 = some 0 ∧
    (0 : Nat) ≠ (8192 : Nat) :=
  ⟨by decide,
   (allocate_frame_spec [⟨0, 4096, MemoryRegionType.Usable⟩,
      ⟨8192, 12288, MemoryRegionType.Usable⟩]
      (by decide) (by decide)).2.2 0 1 0 8192 (by decide) (by decide) (by decide)⟩

end Microkernel
